import Mathlib

/-!
Verification of the Mandelbrot renderer core
(`Programming Rust/Chapter 2 - Tour of Rust/mandelbrot/src/main.rs`).

The `f64` components of the `num` crate's `Complex<f64>` are modelled as
exact rationals (`ℚ`); `usize` values are `ℕ`; `u8` arithmetic is `ℕ`
arithmetic mod 256; Rust's `Option` is Lean's `Option`; the `assert!` in
`render` is modelled by returning `none` (a panic) from `render`, while a
normal return of the mutated pixel buffer is `some`.  Strings are lists of
characters, so the byte index returned by `str::find` on the ASCII inputs
of the claims is the list index.
-/

namespace Mandelbrot

/-- The `num` crate's complex-number struct, with `f64` fields modelled as
exact rationals. -/
structure Complex where
  re : ℚ
  im : ℚ
deriving DecidableEq

/-- Complex addition, componentwise (the `num` crate's `Add` impl). -/
def Complex.add (a b : Complex) : Complex :=
  ⟨a.re + b.re, a.im + b.im⟩

/-- Complex multiplication (the `num` crate's `Mul` impl). -/
def Complex.mul (a b : Complex) : Complex :=
  ⟨a.re * b.re - a.im * b.im, a.re * b.im + a.im * b.re⟩

instance : Add Complex := ⟨Complex.add⟩

instance : Mul Complex := ⟨Complex.mul⟩

/-- The `num` crate's `Complex::norm_sqr`: squared magnitude
`re * re + im * im`, no square root. -/
def Complex.norm_sqr (z : Complex) : ℚ :=
  z.re * z.re + z.im * z.im

/-- The loop of `escape_time`:
`for i in 0..limit { if z.norm_sqr() > 4.0 { return Some(i); } z = z * z + c; }`.
The fuel argument is the number of loop iterations still to run
(`limit - i`), so the loop index `i` runs from 0 while fuel remains. -/
def escape_time.go (c z : Complex) (i : ℕ) : ℕ → Option ℕ
  | 0 => none
  | fuel + 1 =>
    if 4 < z.norm_sqr then some i
    else escape_time.go c (z * z + c) (i + 1) fuel

/-- `escape_time(c, limit)` from the source: iterate `z ← z*z + c` from
`z = 0`, checking `z.norm_sqr() > 4.0` before each update; return `Some(i)`
on the first success, `None` when the limit is exhausted. -/
def escape_time (c : Complex) (limit : ℕ) : Option ℕ :=
  escape_time.go c ⟨0, 0⟩ 0 limit

/-- `pixel_to_point(bounds, pixel, upper_left, lower_right)` from the
source.  `bounds` is `(width, height)`, `pixel` is `(column, row)`; the
`f64` divisions are modelled as exact rational division (the claims only
use positive bounds, where the source performs no division by zero). -/
def pixel_to_point (bounds pixel : ℕ × ℕ) (upper_left lower_right : Complex) :
    Complex :=
  let width : ℚ := lower_right.re - upper_left.re
  let height : ℚ := upper_left.im - lower_right.im
  ⟨upper_left.re + (pixel.1 : ℚ) * width / (bounds.1 : ℚ),
   upper_left.im - (pixel.2 : ℚ) * height / (bounds.2 : ℚ)⟩

/-- The byte `render` stores for the pixel at `(column, row)`:
`match escape_time(point, 255) { None => 0, Some(count) => 255 - count as u8 }`,
with the `u8` cast modelled as reduction mod 256. -/
def renderByte (bounds : ℕ × ℕ) (upper_left lower_right : Complex)
    (row column : ℕ) : ℕ :=
  match escape_time (pixel_to_point bounds (column, row) upper_left lower_right)
      255 with
  | none => 0
  | some count => 255 - count % 256

/-- `render(pixels, bounds, upper_left, lower_right)` from the source:
`assert!(pixels.len() == bounds.0 * bounds.1)` (a failed assertion is the
`none` result), then for each `row` and `column` in row-major order store
`renderByte` at index `row * bounds.0 + column`. -/
def render (pixels : List ℕ) (bounds : ℕ × ℕ)
    (upper_left lower_right : Complex) : Option (List ℕ) :=
  if pixels.length = bounds.1 * bounds.2 then
    some ((List.range bounds.2).foldl
      (fun px row =>
        (List.range bounds.1).foldl
          (fun px column =>
            px.set (row * bounds.1 + column)
              (renderByte bounds upper_left lower_right row column))
          px)
      pixels)
  else none

/-- The inner column loop of `render`, writing the row band of `row`. -/
def renderInner (w : ℕ) (b : ℕ → ℕ → ℕ) (px : List ℕ) (row : ℕ) :
    List ℕ :=
  (List.range w).foldl
    (fun px column => px.set (row * w + column) (b row column)) px

/-- The outer row loop of `render`: the first `m` rows written. -/
def renderLoop (w : ℕ) (b : ℕ → ℕ → ℕ) (px : List ℕ) (m : ℕ) : List ℕ :=
  (List.range m).foldl (renderInner w b) px

/-- `parse_pair::<T>(s, separator)` from the source, generic over the
`FromStr` implementation `from_str`: find the first occurrence of
`separator`, split around it, parse both sides, succeed only when both
parses succeed. -/
def parse_pair {T : Type} (from_str : List Char → Option T)
    (s : List Char) (separator : Char) : Option (T × T) :=
  match s.findIdx? (fun ch => ch == separator) with
  | none => none
  | some index =>
    match from_str (s.take index), from_str (s.drop (index + 1)) with
    | some l, some r => some (l, r)
    | _, _ => none

/-- One decimal digit, as Rust's integer `FromStr` accepts it. -/
def digit? (ch : Char) : Option ℕ :=
  if '0' ≤ ch ∧ ch ≤ '9' then some (ch.toNat - '0'.toNat) else none

/-- A non-empty string of decimal digits, as a natural number; `none` on an
empty string or any non-digit character. -/
def parseDigits (l : List Char) : Option ℕ :=
  if l = [] then none
  else
    l.foldl
      (fun acc ch => acc.bind fun n => (digit? ch).map fun d => 10 * n + d)
      (some 0)

/-- Rust's integer `FromStr` (as used by `parse_pair::<i32>`): an optional
leading sign followed by one or more decimal digits, and nothing else.
Model integers are unbounded, so `i32` overflow (irrelevant to the small
inputs of the claims) is not modelled. -/
def int_from_str (s : List Char) : Option ℤ :=
  match s with
  | '+' :: rest => (parseDigits rest).map fun n => (n : ℤ)
  | '-' :: rest => (parseDigits rest).map fun n => -(n : ℤ)
  | _ => (parseDigits s).map fun n => (n : ℤ)

/-! ### Componentwise arithmetic lemmas -/

@[simp] theorem Complex.mul_mk (a b c d : ℚ) :
    (⟨a, b⟩ * ⟨c, d⟩ : Complex) = ⟨a * c - b * d, a * d + b * c⟩ := rfl

@[simp] theorem Complex.add_mk (a b c d : ℚ) :
    (⟨a, b⟩ + ⟨c, d⟩ : Complex) = ⟨a + c, b + d⟩ := rfl

@[simp] theorem Complex.norm_sqr_mk (a b : ℚ) :
    Complex.norm_sqr ⟨a, b⟩ = a * a + b * b := rfl

/-! ### Basic facts about the escape-time loop -/

/-- Unfolding lemma for one loop iteration. -/
theorem escape_time.go_succ (c z : Complex) (i fuel : ℕ) :
    escape_time.go c z i (fuel + 1) =
      if 4 < z.norm_sqr then some i
      else escape_time.go c (z * z + c) (i + 1) fuel := rfl

/-- Indices returned by the loop are at least the starting index. -/
theorem escape_time.go_le {c z : Complex} {i j fuel : ℕ}
    (h : escape_time.go c z i fuel = some j) : i ≤ j := by
  induction fuel generalizing z i with
  | zero => simp [escape_time.go] at h
  | succ fuel ih =>
    rw [escape_time.go] at h
    split at h
    · cases h; exact Nat.le_refl _
    · exact Nat.le_of_succ_le (ih h)

/-- Indices returned by the loop are below start plus fuel. -/
theorem escape_time.go_lt {c z : Complex} {i j fuel : ℕ}
    (h : escape_time.go c z i fuel = some j) : j < i + fuel := by
  induction fuel generalizing z i with
  | zero => simp [escape_time.go] at h
  | succ fuel ih =>
    rw [escape_time.go] at h
    split at h
    · cases h; omega
    · have := ih h; omega

/-- A successful escape index is below the limit. -/
theorem escape_time_lt {c : Complex} {limit i : ℕ}
    (h : escape_time c limit = some i) : i < limit := by
  have := escape_time.go_lt h
  omega

/-- A successful escape index is at least 1: the check at iteration 0 sees
`z = 0` with squared norm 0. -/
theorem escape_time_pos {c : Complex} {limit i : ℕ}
    (h : escape_time c limit = some i) : 1 ≤ i := by
  cases limit with
  | zero => simp [escape_time, escape_time.go] at h
  | succ fuel =>
    rw [escape_time, escape_time.go] at h
    split at h
    · next hlt => norm_num [Complex.norm_sqr] at hlt
    · exact escape_time.go_le h

/-- The iterate stays at the origin when `c = 0`, for any fuel. -/
theorem escape_time.go_zero (i fuel : ℕ) :
    escape_time.go ⟨0, 0⟩ ⟨0, 0⟩ i fuel = none := by
  induction fuel generalizing i with
  | zero => rfl
  | succ fuel ih =>
    rw [escape_time.go_succ]
    rw [if_neg (by norm_num)]
    have : (⟨0, 0⟩ * ⟨0, 0⟩ + ⟨0, 0⟩ : Complex) = ⟨0, 0⟩ := by
      norm_num
    rw [this]
    exact ih _

/-- With at least two iterations available, a point with squared norm above
4 escapes exactly at iteration 1. -/
theorem escape_time_of_norm_gt {c : Complex} (hc : 4 < c.norm_sqr)
    (fuel : ℕ) : escape_time c (fuel + 2) = some 1 := by
  obtain ⟨cre, cim⟩ := c
  rw [escape_time, show fuel + 2 = (fuel + 1) + 1 from rfl,
    escape_time.go_succ]
  rw [if_neg (by norm_num)]
  rw [escape_time.go_succ]
  rw [if_pos (by simpa using hc)]

/-- With a single iteration available, the only check sees `z = 0` and no
point ever escapes. -/
theorem escape_time_one (c : Complex) : escape_time c 1 = none := by
  obtain ⟨cre, cim⟩ := c
  rw [escape_time, escape_time.go_succ]
  rw [if_neg (by norm_num)]
  rfl

/-! ### Render loop machinery -/

/-- `render` expressed through the loop helpers. -/
theorem render_eq (pixels : List ℕ) (w h : ℕ) (ul lr : Complex) :
    render pixels (w, h) ul lr =
      if pixels.length = w * h then
        some (renderLoop w (renderByte (w, h) ul lr) pixels h)
      else none := rfl

/-- A row within the height and a column within the width index inside a
buffer of `width * height` cells. -/
theorem rowcol_lt {w h row col : ℕ} (hrow : row < h) (hcol : col < w) :
    row * w + col < w * h := by
  have h1 : row * w + col < (row + 1) * w := by
    rw [Nat.succ_mul]; omega
  have h2 : (row + 1) * w ≤ h * w := mul_le_mul_right' (by omega) w
  have h3 : h * w = w * h := Nat.mul_comm h w
  omega

/-- The offset-write loop preserves length. -/
theorem setLoop_length (px : List ℕ) (base : ℕ) (g : ℕ → ℕ) (n : ℕ) :
    ((List.range n).foldl (fun px col => px.set (base + col) (g col))
        px).length = px.length := by
  induction n with
  | zero => rfl
  | succ n ih =>
    rw [List.range_succ, List.foldl_append, List.foldl_cons, List.foldl_nil,
      List.length_set, ih]

/-- The offset-write loop leaves indices below the base untouched. -/
theorem setLoop_getElem_lt (px : List ℕ) (base : ℕ) (g : ℕ → ℕ) (n j : ℕ)
    (hj : j < base) :
    ((List.range n).foldl (fun px col => px.set (base + col) (g col))
        px)[j]? = px[j]? := by
  induction n with
  | zero => rfl
  | succ n ih =>
    rw [List.range_succ, List.foldl_append, List.foldl_cons, List.foldl_nil]
    rw [List.getElem?_set_ne (by omega), ih]

/-- The offset-write loop stores `g col` at `base + col` for every column
it visits (later writes land at distinct indices). -/
theorem setLoop_getElem_hit (px : List ℕ) (base : ℕ) (g : ℕ → ℕ)
    (n col : ℕ) (hcol : col < n) (hlt : base + col < px.length) :
    ((List.range n).foldl (fun px col => px.set (base + col) (g col))
        px)[base + col]? = some (g col) := by
  induction n with
  | zero => omega
  | succ n ih =>
    rw [List.range_succ, List.foldl_append, List.foldl_cons, List.foldl_nil]
    by_cases hc : col = n
    · subst hc
      exact List.getElem?_set_self (by rw [setLoop_length]; exact hlt)
    · rw [List.getElem?_set_ne (by omega)]
      exact ih (by omega)

/-- The row band writer preserves length. -/
theorem renderInner_length (w : ℕ) (b : ℕ → ℕ → ℕ) (px : List ℕ)
    (row : ℕ) : (renderInner w b px row).length = px.length :=
  setLoop_length px (row * w) (fun column => b row column) w

/-- The row band writer leaves indices before its band untouched. -/
theorem renderInner_getElem_lt (w : ℕ) (b : ℕ → ℕ → ℕ) (px : List ℕ)
    (row j : ℕ) (hj : j < row * w) :
    (renderInner w b px row)[j]? = px[j]? :=
  setLoop_getElem_lt px (row * w) (fun column => b row column) w j hj

/-- The row band writer stores `b row col` at `row * w + col`. -/
theorem renderInner_getElem_hit (w : ℕ) (b : ℕ → ℕ → ℕ) (px : List ℕ)
    (row col : ℕ) (hcol : col < w) (hlt : row * w + col < px.length) :
    (renderInner w b px row)[row * w + col]? = some (b row col) :=
  setLoop_getElem_hit px (row * w) (fun column => b row column) w col hcol
    hlt

/-- Unfolding lemma: processing one more row applies the band writer to the
result of the earlier rows. -/
theorem renderLoop_succ (w : ℕ) (b : ℕ → ℕ → ℕ) (px : List ℕ) (m : ℕ) :
    renderLoop w b px (m + 1) = renderInner w b (renderLoop w b px m) m := by
  simp only [renderLoop, List.range_succ, List.foldl_append,
    List.foldl_cons, List.foldl_nil]

/-- The row loop preserves length. -/
theorem renderLoop_length (w : ℕ) (b : ℕ → ℕ → ℕ) (px : List ℕ) (m : ℕ) :
    (renderLoop w b px m).length = px.length := by
  induction m with
  | zero => rfl
  | succ m ih =>
    rw [renderLoop_succ, renderInner_length, ih]

/-- After processing `m` rows, every visited slot `row * w + col` holds
`b row col`: later rows write disjoint bands. -/
theorem renderLoop_getElem_hit (w : ℕ) (b : ℕ → ℕ → ℕ) (px : List ℕ)
    (m row col : ℕ) (hrow : row < m) (hcol : col < w)
    (hlt : row * w + col < px.length) :
    (renderLoop w b px m)[row * w + col]? = some (b row col) := by
  induction m with
  | zero => omega
  | succ m ih =>
    rw [renderLoop_succ]
    by_cases hr : row = m
    · subst hr
      exact renderInner_getElem_hit w b _ row col hcol
        (by rw [renderLoop_length]; exact hlt)
    · have hband : row * w + col < m * w := by
        have h1 : row * w + col < (row + 1) * w := by
          rw [Nat.succ_mul]; omega
        have h2 : (row + 1) * w ≤ m * w := mul_le_mul_right' (by omega) w
        omega
      rw [renderInner_getElem_lt w b _ m _ hband]
      exact ih (by omega)

/-- The full render loop, indexed linearly: slot `i` holds the byte of the
pixel at row `i / w`, column `i % w`. -/
theorem renderLoop_getElem_index (w h : ℕ) (b : ℕ → ℕ → ℕ) (px : List ℕ)
    (hlen : px.length = w * h) (i : ℕ) (hi : i < w * h) :
    (renderLoop w b px h)[i]? = some (b (i / w) (i % w)) := by
  have hw : 0 < w := by
    rcases Nat.eq_zero_or_pos w with h0 | h0
    · subst h0; simp at hi
    · exact h0
  have hrow : i / w < h :=
    (Nat.div_lt_iff_lt_mul hw).mpr (by rw [Nat.mul_comm h w]; exact hi)
  have hcol : i % w < w := Nat.mod_lt _ hw
  have hsplit : i / w * w + i % w = i := by
    have h1 := Nat.div_add_mod i w
    rw [Nat.mul_comm] at h1
    exact h1
  have hhit := renderLoop_getElem_hit w b px h (i / w) (i % w) hrow hcol
    (by rw [hsplit, hlen]; exact hi)
  rw [hsplit] at hhit
  exact hhit

/-- The rendered buffer is fully determined by the byte function: initial
buffer contents of the right length are irrelevant. -/
theorem renderLoop_ext (w h : ℕ) (b : ℕ → ℕ → ℕ) (px1 px2 : List ℕ)
    (h1 : px1.length = w * h) (h2 : px2.length = w * h) :
    renderLoop w b px1 h = renderLoop w b px2 h := by
  apply List.ext_getElem?
  intro n
  by_cases hn : n < w * h
  · rw [renderLoop_getElem_index w h b px1 h1 n hn,
      renderLoop_getElem_index w h b px2 h2 n hn]
  · rw [List.getElem?_eq_none (by rw [renderLoop_length, h1]; omega),
      List.getElem?_eq_none (by rw [renderLoop_length, h2]; omega)]

/-- The byte written by `render` matches the spec's branch values: 0 for
"did not escape", `255 - i` (no wrap, since `i < 255`) for "escaped at
iteration i". -/
theorem renderByte_eq (w h : ℕ) (ul lr : Complex) (row col : ℕ) :
    renderByte (w, h) ul lr row col =
      match escape_time (pixel_to_point (w, h) (col, row) ul lr) 255 with
      | none => 0
      | some i => 255 - i := by
  rw [renderByte]
  cases het : escape_time (pixel_to_point (w, h) (col, row) ul lr) 255 with
  | none => rfl
  | some i =>
    have hi : i < 255 := escape_time_lt het
    simp [Nat.mod_eq_of_lt (by omega : i < 256)]

/-- A concrete one-pixel render: the buffer `[7]` with bounds `(1, 1)` and a
degenerate viewport at the origin renders to `[0]`, since the origin never
escapes. -/
theorem render_singleton :
    render [7] (1, 1) ⟨0, 0⟩ ⟨0, 0⟩ = some [0] := by
  have hpt : pixel_to_point (1, 1) (0, 0) ⟨0, 0⟩ ⟨0, 0⟩ = ⟨0, 0⟩ := by
    simp [pixel_to_point]
  have het : escape_time ⟨0, 0⟩ 255 = none := escape_time.go_zero 0 255
  have hbyte : renderByte (1, 1) ⟨0, 0⟩ ⟨0, 0⟩ 0 0 = 0 := by
    rw [renderByte, hpt, het]
  rw [render_eq, if_pos (by decide)]
  simp [renderLoop, renderInner, List.range_succ]
  exact hbyte

/-! ### C1: escape for points outside the radius-2 circle -/

/-- C1 counterexample: `c = 3 + 0i` has `|c|² = 9 > 4` and the limit 5 is
positive, but `escape_time` returns `Some(1)`, not `Some(0)` as claimed:
the escape check precedes the update, and at iteration 0 it sees `z = 0`. -/
theorem escape_time_c1_cex :
    4 < Complex.norm_sqr ⟨3, 0⟩ ∧ 0 < 5 ∧
      escape_time ⟨3, 0⟩ 5 = some 1 ∧ escape_time ⟨3, 0⟩ 5 ≠ some 0 := by
  have h5 : escape_time ⟨3, 0⟩ 5 = some 1 :=
    escape_time_of_norm_gt (by norm_num) 3
  exact ⟨by norm_num, by norm_num, h5, by rw [h5]; simp⟩

/-- C1 (amended): for every `c` with `|c|² > 4` (that is, `|c| > 2`) and
every limit `L ≥ 2`, `escape_time(c, L)` returns "escaped at iteration 1";
with limit 1 the single check sees `z = 0` and the result is "did not
escape". -/
theorem escape_time_large_c :
    (∀ (c : Complex) (L : ℕ), 4 < c.norm_sqr → 2 ≤ L →
      escape_time c L = some 1) ∧
    ∀ c : Complex, escape_time c 1 = none := by
  constructor
  · intro c L hc hL
    obtain ⟨fuel, rfl⟩ : ∃ fuel, L = fuel + 2 := ⟨L - 2, by omega⟩
    exact escape_time_of_norm_gt hc fuel
  · exact escape_time_one

/-- C1 witness: the amended theorem applied at `c = 3 + 0i`, `L = 2`. -/
theorem escape_time_large_c_witness :
    escape_time ⟨3, 0⟩ 2 = some 1 ∧ escape_time ⟨3, 0⟩ 1 = none :=
  ⟨escape_time_large_c.1 ⟨3, 0⟩ 2 (by norm_num) (by norm_num),
    escape_time_large_c.2 ⟨3, 0⟩⟩

/-! ### C8: escape_time with limit 0 -/

/-- C8 counterexample: with limit 0 the loop body never runs and
`escape_time` RETURNS the value `None` ("did not escape") — it does not
abort, contrary to the claim that a zero limit is a fatal error. -/
theorem escape_time_limit_zero_cex : escape_time ⟨5, 5⟩ 0 = none := rfl

/-- C8 (amended): for every `c`, `escape_time(c, 0)` returns "did not
escape" (`None`); the code treats a zero limit as an ordinary exhausted
limit, not as a fatal precondition violation. -/
theorem escape_time_limit_zero (c : Complex) : escape_time c 0 = none := rfl

/-! ### C9: the origin never escapes -/

/-- C9: `escape_time(complex(0,0), 255)` is "did not escape": starting from
`z = 0`, the iterate `z ← z*z + c` stays at 0 for `c = 0`, so the squared
norm never exceeds 4 within the limit. -/
theorem escape_time_origin : escape_time ⟨0, 0⟩ 255 = none :=
  escape_time.go_zero 0 255

/-! ### C3, C4: the coordinate mapping -/

/-- C3: for positive bounds and an in-range pixel, `pixel_to_point` returns
exactly `upper_left.re + column * (lower_right.re - upper_left.re) / width`
as real part and
`upper_left.im - row * (upper_left.im - lower_right.im) / height` as
imaginary part (vertical axis inverted relative to the row index). -/
theorem pixel_to_point_formula (w h column row : ℕ) (ul lr : Complex)
    (hw : 0 < w) (hh : 0 < h) (hcol : column < w) (hrow : row < h) :
    pixel_to_point (w, h) (column, row) ul lr =
      ⟨ul.re + (column : ℚ) * (lr.re - ul.re) / (w : ℚ),
       ul.im - (row : ℚ) * (ul.im - lr.im) / (h : ℚ)⟩ := rfl

/-- C3 witness: the formula at bounds `(2, 3)`, pixel `(1, 2)`, viewport
corners `-1 + i` and `1 - i`. -/
theorem pixel_to_point_formula_witness :
    pixel_to_point (2, 3) (1, 2) ⟨-1, 1⟩ ⟨1, -1⟩ =
      ⟨(-1 : ℚ) + (1 : ℚ) * ((1 : ℚ) - (-1 : ℚ)) / (2 : ℚ),
       (1 : ℚ) - (2 : ℚ) * ((1 : ℚ) - (-1 : ℚ)) / (3 : ℚ)⟩ := by
  have := pixel_to_point_formula 2 3 1 2 ⟨-1, 1⟩ ⟨1, -1⟩
    (by norm_num) (by norm_num) (by norm_num) (by norm_num)
  rw [this]
  norm_num

/-- C4: mapping the top-left pixel `(0, 0)` yields exactly `upper_left`,
and concretely
`pixel_to_point((100,100), (25,75), -1+i, 1-i) = -0.5 - 0.5i` exactly. -/
theorem pixel_to_point_top_left :
    (∀ (w h : ℕ) (ul lr : Complex), 0 < w → 0 < h →
      pixel_to_point (w, h) (0, 0) ul lr = ul) ∧
    pixel_to_point (100, 100) (25, 75) ⟨-1, 1⟩ ⟨1, -1⟩ =
      ⟨-(1 : ℚ) / 2, -(1 : ℚ) / 2⟩ := by
  constructor
  · intro w h ul lr hw hh
    obtain ⟨ure, uim⟩ := ul
    simp [pixel_to_point]
  · simp only [pixel_to_point]
    norm_num

/-- C4 witness: the top-left mapping applied at bounds `(7, 9)` and
viewport corners `-2 + i` and `1 - i`. -/
theorem pixel_to_point_top_left_witness :
    pixel_to_point (7, 9) (0, 0) ⟨-2, 1⟩ ⟨1, -1⟩ = ⟨-2, 1⟩ :=
  pixel_to_point_top_left.1 7 9 ⟨-2, 1⟩ ⟨1, -1⟩ (by norm_num) (by norm_num)

/-! ### C5, C6: the pair parser -/

/-- C5 counterexample: with the digit `'1'` as separator, the string
`"21312"` contains the separator twice, yet `parse_pair` succeeds with
`Some((2, 312))` — it splits at the FIRST occurrence only and the right
substring `"312"` still parses, so "separator occurs exactly once" is not
necessary for success. -/
theorem parse_pair_c5_cex :
    parse_pair int_from_str ['2', '1', '3', '1', '2'] '1' = some (2, 312) ∧
      List.count '1' ['2', '1', '3', '1', '2'] = 2 := by
  constructor
  · decide
  · decide

/-- C5 (amended): `parse_pair(s, separator)` succeeds exactly when the
separator occurs in `s` at least once and, splitting at the FIRST
occurrence, both the substring before and the substring after it parse
successfully; on success it returns the parsed values in (before, after)
order.  In particular `parse_pair::<int>("10,20,30", ',')` is "no value",
because the second field `"20,30"` fails to parse as a plain number. -/
theorem parse_pair_characterization :
    (∀ (T : Type) (from_str : List Char → Option T) (s : List Char)
        (separator : Char) (l r : T),
      parse_pair from_str s separator = some (l, r) ↔
        ∃ index : ℕ, s[index]? = some separator ∧
          (∀ j, j < index → s[j]? ≠ some separator) ∧
          from_str (s.take index) = some l ∧
          from_str (s.drop (index + 1)) = some r) ∧
    parse_pair int_from_str ['1', '0', ',', '2', '0', ',', '3', '0'] ',' =
      none := by
  constructor
  · intro T from_str s separator l r
    cases h : s.findIdx? (fun ch => ch == separator) with
    | none =>
      have hnone := List.findIdx?_eq_none_iff.mp h
      simp only [parse_pair, h]
      constructor
      · intro hcontra; cases hcontra
      · rintro ⟨index, hsep, -, -, -⟩
        have hmem : separator ∈ s := List.mem_iff_getElem?.mpr ⟨index, hsep⟩
        have := hnone separator hmem
        simp at this
    | some index =>
      obtain ⟨hlt, hhit, hmin⟩ := List.findIdx?_eq_some_iff_getElem.mp h
      rw [beq_iff_eq] at hhit
      simp only [parse_pair, h]
      constructor
      · intro hsome
        refine ⟨index, ?_, ?_, ?_, ?_⟩ <;>
          [skip; skip;
           (cases hl : from_str (s.take index) <;>
              cases hr : from_str (s.drop (index + 1)) <;>
              simp [hl, hr] at hsome <;> simp [hsome.1]);
           (cases hl : from_str (s.take index) <;>
              cases hr : from_str (s.drop (index + 1)) <;>
              simp [hl, hr] at hsome <;> simp [hsome.2])]
        · rw [List.getElem?_eq_getElem hlt, hhit]
        · intro j hj hcontra
          obtain ⟨hjlt, hjval⟩ := List.getElem?_eq_some_iff.mp hcontra
          exact hmin j hj (by simp [hjval])
      · rintro ⟨idx, hsep, hminidx, hl, hr⟩
        obtain ⟨hidxlt, hidxval⟩ := List.getElem?_eq_some_iff.mp hsep
        have hidx : idx = index := by
          rcases Nat.lt_trichotomy idx index with hlt2 | heq | hgt
          · exact absurd (by simp [hidxval]) (hmin idx hlt2)
          · exact heq
          · exact absurd (by rw [List.getElem?_eq_getElem hlt, hhit])
              (hminidx index hgt)
        subst hidx
        rw [hl, hr]
  · decide

/-- C5 witness: the characterization applied to the concrete parse
`parse_pair::<int>("10,20", ',') = Some((10, 20))`, built from the first
occurrence of `','` at index 2 with `"10"` and `"20"` parsing. -/
theorem parse_pair_characterization_witness :
    parse_pair int_from_str ['1', '0', ',', '2', '0'] ',' = some (10, 20) :=
  (parse_pair_characterization.1 ℤ int_from_str ['1', '0', ',', '2', '0']
      ',' 10 20).mpr
    ⟨2, by decide, by decide, by decide, by decide⟩

/-- C6: for every string containing no occurrence of the separator,
`parse_pair` returns "no value" (the `find` step fails); the model is a
total function, so no panic is possible. -/
theorem parse_pair_no_separator {T : Type}
    (from_str : List Char → Option T) (s : List Char) (separator : Char)
    (h : ∀ c ∈ s, c ≠ separator) :
    parse_pair from_str s separator = none := by
  have hnone : s.findIdx? (fun ch => ch == separator) = none :=
    List.findIdx?_eq_none_iff.mpr fun x hx => by
      simpa using h x hx
  simp [parse_pair, hnone]

/-- C6 witness: the no-separator theorem applied to `"ab"` with separator
`','`. -/
theorem parse_pair_no_separator_witness :
    parse_pair int_from_str ['a', 'b'] ',' = none :=
  parse_pair_no_separator int_from_str ['a', 'b'] ',' (by decide)

/-! ### C2: what render writes -/

/-- C2: under the length precondition, the rendered buffer holds, at slot
`row * width + column`, the value 0 when the pixel's point does not escape
within limit 255, and `255 - i` when it escapes at iteration `i`; the
output has the buffer's size and is independent of the buffer's initial
contents, so every byte is overwritten. -/
theorem render_writes (pixels : List ℕ) (w h : ℕ) (ul lr : Complex)
    (out : List ℕ) (hlen : pixels.length = w * h)
    (hout : render pixels (w, h) ul lr = some out) :
    (∀ row col, row < h → col < w →
      out[row * w + col]? =
        some (match escape_time (pixel_to_point (w, h) (col, row) ul lr)
            255 with
          | none => 0
          | some i => 255 - i)) ∧
    out.length = w * h ∧
    ∀ pixels2 : List ℕ, pixels2.length = w * h →
      render pixels2 (w, h) ul lr = some out := by
  rw [render_eq, if_pos hlen] at hout
  have hout2 := Option.some.inj hout
  subst hout2
  refine ⟨?_, ?_, ?_⟩
  · intro row col hrow hcol
    rw [renderLoop_getElem_hit w _ pixels h row col hrow hcol
      (by rw [hlen]; exact rowcol_lt hrow hcol)]
    rw [renderByte_eq]
  · rw [renderLoop_length, hlen]
  · intro pixels2 hlen2
    rw [render_eq, if_pos hlen2]
    rw [renderLoop_ext w h _ pixels2 pixels hlen2 hlen]

/-- C2 witness: the write rule applied to the one-pixel render of the
origin viewport: slot `0 * 1 + 0` of the output `[0]` holds the
"did not escape" branch value. -/
theorem render_writes_witness :
    ([0] : List ℕ)[0 * 1 + 0]? =
      some (match escape_time (pixel_to_point (1, 1) (0, 0) ⟨0, 0⟩ ⟨0, 0⟩)
          255 with
        | none => 0
        | some i => 255 - i) :=
  (render_writes [7] 1 1 ⟨0, 0⟩ ⟨0, 0⟩ [0] (by decide)
      render_singleton).1 0 0 (by decide) (by decide)

/-! ### C7: the render precondition -/

/-- C7: a buffer whose length differs from `width * height` is a fatal
precondition failure (the assertion fires, modelled as `none`); under the
precondition the render succeeds and every index it writes,
`row * width + column` with `row < height` and `column < width`, lies
within the buffer's bounds. -/
theorem render_precondition (pixels : List ℕ) (w h : ℕ) (ul lr : Complex) :
    (pixels.length ≠ w * h → render pixels (w, h) ul lr = none) ∧
    (pixels.length = w * h →
      render pixels (w, h) ul lr ≠ none ∧
      ∀ row col, row < h → col < w → row * w + col < pixels.length) := by
  constructor
  · intro hne
    rw [render_eq, if_neg hne]
  · intro hlen
    constructor
    · rw [render_eq, if_pos hlen]
      simp
    · intro row col hrow hcol
      rw [hlen]
      exact rowcol_lt hrow hcol

/-- C7 witness: a 3-byte buffer with bounds `(2, 1)` aborts; a 2-byte
buffer renders, and the last written index `0 * 2 + 1` is in bounds. -/
theorem render_precondition_witness :
    render [1, 2, 3] (2, 1) ⟨0, 0⟩ ⟨0, 0⟩ = none ∧
      render [1, 2] (2, 1) ⟨0, 0⟩ ⟨0, 0⟩ ≠ none ∧
      0 * 2 + 1 < ([1, 2] : List ℕ).length :=
  ⟨(render_precondition [1, 2, 3] 2 1 ⟨0, 0⟩ ⟨0, 0⟩).1 (by decide),
   ((render_precondition [1, 2] 2 1 ⟨0, 0⟩ ⟨0, 0⟩).2 (by decide)).1,
   ((render_precondition [1, 2] 2 1 ⟨0, 0⟩ ⟨0, 0⟩).2 (by decide)).2 0 1
     (by decide) (by decide)⟩

/-! ### C10: Some(0) is impossible and the byte 255 never appears -/

/-- C10: with any positive limit, `escape_time` never returns
"escaped at iteration 0" (the check at iteration 0 sees `z = 0`), so the
escaped branch of `render` always writes `255 - i` with `i ≥ 1` and the
byte value 255 never appears in a rendered buffer. -/
theorem escape_time_never_zero :
    (∀ (c : Complex) (L : ℕ), 1 ≤ L → escape_time c L ≠ some 0) ∧
    ∀ (pixels : List ℕ) (w h : ℕ) (ul lr : Complex) (out : List ℕ),
      pixels.length = w * h → render pixels (w, h) ul lr = some out →
      ∀ b ∈ out, b ≠ 255 := by
  constructor
  · intro c L hL hcontra
    have := escape_time_pos hcontra
    omega
  · intro pixels w h ul lr out hlen hout b hb
    rw [render_eq, if_pos hlen] at hout
    have hout2 := Option.some.inj hout
    subst hout2
    obtain ⟨n, hn⟩ := List.mem_iff_getElem?.mp hb
    have hnlt : n < w * h := by
      obtain ⟨hlt, -⟩ := List.getElem?_eq_some_iff.mp hn
      rw [renderLoop_length, hlen] at hlt
      exact hlt
    rw [renderLoop_getElem_index w h _ pixels hlen n hnlt] at hn
    have hb2 : renderByte (w, h) ul lr (n / w) (n % w) = b :=
      Option.some.inj hn
    intro hcontra
    subst hcontra
    cases het : escape_time
        (pixel_to_point (w, h) (n % w, n / w) ul lr) 255 with
    | none => simp [renderByte, het] at hb2
    | some count =>
      simp [renderByte, het] at hb2
      have h1 : 1 ≤ count := escape_time_pos het
      have h2 : count < 255 := escape_time_lt het
      omega

/-- C10 witness: no zero escape index at `c = 3 + 0i` with limit 5, and the
byte 0 of the one-pixel render differs from 255. -/
theorem escape_time_never_zero_witness :
    escape_time ⟨3, 0⟩ 5 ≠ some 0 ∧ (0 : ℕ) ≠ 255 :=
  ⟨escape_time_never_zero.1 ⟨3, 0⟩ 5 (by norm_num),
   escape_time_never_zero.2 [7] 1 1 ⟨0, 0⟩ ⟨0, 0⟩ [0] (by decide)
     render_singleton 0 (by simp)⟩

end Mandelbrot
